import Mathlib

/-!
Shallow embedding of `norse-billow` (`src/lib.rs`): a SoA block-layout
builder (`LayoutBuilder`), the finalized layout (`BlockLayout`) with its
`apply` operation carving a raw memory region into per-field sub-arrays,
and the resulting `Block` view.

Modelling conventions:
* `usize` values are `Nat`.  Arithmetic that the source performs on `usize`
  is modelled with explicit overflow/underflow checks matching the
  overflow-checked (debug/test) semantics of Rust: an operation that would
  overflow, a failed `assert!`/`assert_eq!`, a failed `unwrap()`, or an
  out-of-range index panics; every panic is modelled as `none`.
* Bit masking (`&`, `!` on `usize`) is modelled with `Nat.land` / xor with
  the all-ones 64-bit word; this agrees with the machine operations for
  operands below `2 ^ 64`, which the explicit guards ensure on every path
  where masking is reached.
* Rust's stable `slice::sort_by` is modelled by Mathlib's stable
  `List.insertionSort` applied to the relation `packR`, the exact
  comparator of `LayoutBuilder::finish` (`align` descending, then slot
  ascending).  The comparator is antisymmetric on the builder's lists
  (slots are distinct), so the sorted result is the unique one produced by
  any correct sort.
* `IndexMap` iterates keys/values in insertion order; `slot_map` is kept as
  the association list in insertion order.
-/

namespace Billow

/-- `2 ^ 64`, one more than `usize::MAX` on the 64-bit platform modelled. -/
def USIZE : Nat := 2 ^ 64

/-- `isize::MAX as usize` on the 64-bit platform modelled. -/
def ISIZE_MAX : Nat := 2 ^ 63 - 1

/-- `std::alloc::Layout`: a size/alignment pair. -/
structure Layout where
  size : Nat
  align : Nat
deriving DecidableEq, Repr

/-- `usize::is_power_of_two`, as the source's bit test `n & (n - 1) == 0`
plus nonzero-ness (Rust checks `count_ones() == 1`, equivalent for
`usize` values). -/
def is_power_of_two (n : Nat) : Bool := n != 0 && n &&& (n - 1) == 0

/-- `Layout::from_size_align`: requires a power-of-two alignment and that
`size`, rounded up to a multiple of `align`, does not overflow
(`size <= isize::MAX - (align - 1)`); `none` is the `Err` case. -/
def Layout.from_size_align (size align : Nat) : Option Layout :=
  if is_power_of_two align ∧ size ≤ ISIZE_MAX - (align - 1) then
    some { size := size, align := align }
  else
    none

/-- `LayoutBuilder`: registration-ordered `(slot, layout)` pairs plus the
running maximum alignment and element size. -/
structure LayoutBuilder where
  layouts : List (Nat × Layout)
  max_alignment : Nat
  element_size : Nat
deriving DecidableEq, Repr

/-- `LayoutBuilder::add` (monomorphised over the layout of `T`): records
the field under the next slot, updates the running maximum alignment and
the running element size, and returns the new slot. -/
def LayoutBuilder.add (b : LayoutBuilder) (layout : Layout) : LayoutBuilder × Nat :=
  let slot := b.layouts.length
  ({ layouts := b.layouts ++ [(slot, layout)],
     max_alignment := max b.max_alignment layout.align,
     element_size := b.element_size + layout.size }, slot)

/-- The comparator of `LayoutBuilder::finish` as a relation: `a` sorts no
later than `b` iff `align_a > align_b`, or the alignments are equal and
`slot_a <= slot_b` (Rust: `align_a.cmp(align_b).reverse().then(slot_a.cmp(slot_b))`
is not `Greater`). -/
def packR (a b : Nat × Layout) : Prop :=
  b.2.align < a.2.align ∨ (a.2.align = b.2.align ∧ a.1 ≤ b.1)

instance packR_decidable : DecidableRel packR := fun a b => by
  unfold packR; infer_instance

instance packR_total : IsTotal (Nat × Layout) packR :=
  ⟨by intro a b; unfold packR; omega⟩

instance packR_trans : IsTrans (Nat × Layout) packR :=
  ⟨by intro a b c; unfold packR; omega⟩

/-- The stable sort of `LayoutBuilder::finish` (`self.layouts.sort_by(...)`). -/
def sortLayouts (ls : List (Nat × Layout)) : List (Nat × Layout) :=
  ls.insertionSort packR

/-- `Iterator::enumerate` starting at index `i`. -/
def enumFrom {α : Type} : Nat → List α → List (Nat × α)
  | _, [] => []
  | i, a :: as => (i, a) :: enumFrom (i + 1) as

/-- `BlockLayout`: the finalized layout.  `slot_map` is the `IndexMap`
from original slot to packing position, as an association list in
insertion (= packing) order; `sub_layouts` are the per-field layouts in
packing order; `layout` is the whole-element layout. -/
structure BlockLayout where
  slot_map : List (Nat × Nat)
  layout : Layout
  sub_layouts : List Layout
deriving DecidableEq, Repr

/-- `BlockLayout::build`. -/
def BlockLayout.build : LayoutBuilder :=
  { layouts := [], max_alignment := 1, element_size := 0 }

/-- `LayoutBuilder::finish`.  The source ends with
`Layout::from_size_align(element_size, max_alignment).unwrap()`; the
`unwrap` panic on an invalid pair is modelled as `none`. -/
def LayoutBuilder.finish (b : LayoutBuilder) : Option BlockLayout :=
  let sorted := sortLayouts b.layouts
  let slot_map := (enumFrom 0 sorted).map (fun p => (p.2.1, p.1))
  let sub_layouts := sorted.map Prod.snd
  match Layout.from_size_align b.element_size b.max_alignment with
  | some layout =>
    some { slot_map := slot_map, layout := layout, sub_layouts := sub_layouts }
  | none => none

/-- Bitwise complement on 64 bits (`!x` on `usize`), exact for `y < 2 ^ 64`. -/
def not64 (y : Nat) : Nat := (USIZE - 1) ^^^ y

/-- `(x + align - 1) & !(align - 1)`: round `x` up to a multiple of the
power-of-two `align` (source line computing `start`). -/
def round_up (x align : Nat) : Nat := (x + align - 1) &&& not64 (align - 1)

/-- `x & !(align - 1)`: round `x` down to a multiple of the power-of-two
`align` (source line computing `end`). -/
def round_down (x align : Nat) : Nat := x &&& not64 (align - 1)

/-- The offset loop of `BlockLayout::apply`: walk the packing-order field
list with a running offset, asserting `offset % align == 0` (a failed
assertion is `none`), recording each offset, and advancing by
`size * len`. -/
def computeOffsets : List Layout → Nat → Nat → Option (List Nat)
  | [], _, _ => some []
  | l :: ls, len, offset =>
    if offset % l.align == 0 then
      Option.map (fun rest => offset :: rest) (computeOffsets ls len (offset + l.size * len))
    else
      none

/-- The slice loop of `BlockLayout::apply`: for each packing position `i`
drawn from `slot_map.values()` (in insertion order), read `offsets[i]`
(an out-of-range index panics: `none`). -/
def lookupAll (offsets : List Nat) : List Nat → Option (List Nat)
  | [] => some []
  | i :: is =>
    match offsets[i]?, lookupAll offsets is with
    | some v, some vs => some (v :: vs)
    | _, _ => none

/-- `Block`: the result of `apply`; `range` is kept as its two endpoints,
`slices` holds the per-field start addresses as numbers. -/
structure Block where
  range_start : Nat
  range_end : Nat
  len : Nat
  slices : List Nat
deriving DecidableEq, Repr

/-- `BlockLayout::apply`.  Panics modelled as `none`: the power-of-two
`assert_eq!`, overflow of `ptr + align` (inside `ptr + align - 1`),
overflow of `ptr + size`, underflow of `end - start`, the offset-alignment
`assert_eq!`, and the `offsets[*slot]` index.  The `NonNull::unwrap` on
`start + offset` cannot fail for a `NonNull` base (`ptr >= 1` gives
`start + offset >= 1`) and the pointer arithmetic stays below `2 ^ 64`
whenever the guards pass, so neither is modelled as a separate check. -/
def BlockLayout.apply (bl : BlockLayout) (ptr size : Nat) : Option Block :=
  if bl.sub_layouts.isEmpty then
    some { range_start := 0, range_end := 0, len := 0, slices := [] }
  else if bl.layout.align &&& (bl.layout.align - 1) != 0 then
    none
  else if USIZE ≤ ptr + bl.layout.align then
    none
  else if USIZE ≤ ptr + size then
    none
  else
    let start := round_up ptr bl.layout.align
    let stop := round_down (ptr + size) bl.layout.align
    let initial_offset := start - ptr
    if stop < start then
      none
    else
      let size_aligned := stop - start
      let len := if bl.layout.size == 0 then USIZE - 1 else size_aligned / bl.layout.size
      match computeOffsets bl.sub_layouts len 0 with
      | none => none
      | some offsets =>
        match lookupAll offsets (bl.slot_map.map Prod.snd) with
        | none => none
        | some offs =>
          some { range_start := initial_offset,
                 range_end := initial_offset + size_aligned,
                 len := len,
                 slices := offs.map (fun o => start + o) }

/-- `Block::as_raw` (address as a number instead of a typed pointer): the
entry of `slices` at index `slot` together with `len`; an out-of-range
slot panics (`none`). -/
def Block.as_raw (b : Block) (slot : Nat) : Option (Nat × Nat) :=
  (b.slices[slot]?).map (fun p => (p, b.len))

/-- Follows the spec's words (section 4.2 step 6), for comparison with the
code: the address the spec says slot `s` receives, obtained by translating
original slot to packing position through `slot_map`, reading that
position's offset, and adding the aligned start. -/
def spec_slot_address (bl : BlockLayout) (start : Nat) (offsets : List Nat) (slot : Nat) :
    Option Nat :=
  (bl.slot_map.lookup slot).bind fun pos => (offsets[pos]?).map (fun o => start + o)

/-- A builder obtained by a sequence of `add` calls on a fresh builder. -/
def buildFrom (ls : List Layout) : LayoutBuilder :=
  ls.foldl (fun b l => (b.add l).1) BlockLayout.build

/-- The pure list of running offsets the offset loop assigns (offset of
each packing position, starting from `off`). -/
def offsetsFrom : List Layout → Nat → Nat → List Nat
  | [], _, _ => []
  | l :: ls, len, off => off :: offsetsFrom ls len (off + l.size * len)

/-- Field lists as they arise from real `Layout::new::<T>` values: every
alignment is a power of two and every size is a multiple of its own
alignment. -/
def GoodFields (ls : List Layout) : Prop :=
  ∀ l ∈ ls, (∃ k, l.align = 2 ^ k) ∧ l.align ∣ l.size


/-! ### Basic lemmas about the embedded operations -/

theorem enumFrom_map_snd {α : Type} (i : Nat) (ls : List α) :
    (enumFrom i ls).map Prod.snd = ls := by
  induction ls generalizing i with
  | nil => rfl
  | cons a as ih => simp [enumFrom, ih]

theorem enumFrom_map_fst {α : Type} (i : Nat) (ls : List α) :
    (enumFrom i ls).map Prod.fst = List.range' i ls.length := by
  induction ls generalizing i with
  | nil => rfl
  | cons a as ih => simp [enumFrom, ih, List.range']

theorem enumFrom_length {α : Type} (i : Nat) (ls : List α) :
    (enumFrom i ls).length = ls.length := by
  induction ls generalizing i with
  | nil => rfl
  | cons a as ih => simp [enumFrom, ih]

theorem foldl_add_characterization (ls : List Layout) (b : LayoutBuilder) :
    List.foldl (fun b l => (LayoutBuilder.add b l).1) b ls =
      { layouts := b.layouts ++ enumFrom b.layouts.length ls,
        max_alignment := List.foldl (fun m l => max m l.align) b.max_alignment ls,
        element_size := b.element_size + (ls.map Layout.size).sum } := by
  induction ls generalizing b with
  | nil => simp [enumFrom]
  | cons l ls ih =>
    simp only [List.foldl_cons]
    rw [ih]
    simp [LayoutBuilder.add, enumFrom, List.append_assoc, Nat.add_assoc]

theorem buildFrom_layouts (ls : List Layout) : (buildFrom ls).layouts = enumFrom 0 ls := by
  unfold buildFrom BlockLayout.build
  rw [foldl_add_characterization]
  simp

theorem buildFrom_element_size (ls : List Layout) :
    (buildFrom ls).element_size = (ls.map Layout.size).sum := by
  unfold buildFrom BlockLayout.build
  rw [foldl_add_characterization]
  simp

theorem buildFrom_max_alignment (ls : List Layout) :
    (buildFrom ls).max_alignment = List.foldl (fun m l => max m l.align) 1 ls := by
  unfold buildFrom BlockLayout.build
  rw [foldl_add_characterization]

theorem from_size_align_some {s a : Nat} {L : Layout}
    (h : Layout.from_size_align s a = some L) :
    L.size = s ∧ L.align = a ∧ is_power_of_two a = true := by
  unfold Layout.from_size_align at h
  split at h
  · cases h
    rename_i hc
    exact ⟨rfl, rfl, hc.1⟩
  · cases h

theorem land_pred_eq_zero_of_is_power_of_two {a : Nat} (h : is_power_of_two a = true) :
    a &&& (a - 1) = 0 := by
  unfold is_power_of_two at h
  rw [Bool.and_eq_true] at h
  simpa using h.2

theorem finish_some_elim {b : LayoutBuilder} {bl : BlockLayout}
    (h : b.finish = some bl) :
    Layout.from_size_align b.element_size b.max_alignment = some bl.layout ∧
    bl.slot_map = (enumFrom 0 (sortLayouts b.layouts)).map (fun p => (p.2.1, p.1)) ∧
    bl.sub_layouts = (sortLayouts b.layouts).map Prod.snd := by
  unfold LayoutBuilder.finish at h
  cases hfs : Layout.from_size_align b.element_size b.max_alignment with
  | none => rw [hfs] at h; cases h
  | some L =>
    rw [hfs] at h
    cases h
    exact ⟨rfl, rfl, rfl⟩

theorem sortLayouts_perm (ls : List (Nat × Layout)) : List.Perm (sortLayouts ls) ls :=
  List.perm_insertionSort packR ls

theorem sortLayouts_sorted (ls : List (Nat × Layout)) : List.Sorted packR (sortLayouts ls) :=
  List.sorted_insertionSort packR ls

/-! ### Claim theorems (first batch) -/

/-- C1: the claim says `apply` stores per-field addresses by translating
original slot to packing position to offset, so that field 0's pointer is
returned at index 0 and, with field A (3,1) registered before B (40,8),
B's sub-array precedes A's through the returned slot addresses.  The code
instead pushes the addresses in packing order (`slot_map.values()` in
insertion order is `0..n`), so `as_raw 0` returns B's start address 8,
while the slot-translation of the spec yields 448 for slot 0. -/
theorem c1_slot_addresses_stored_in_packing_order :
    (LayoutBuilder.finish (buildFrom [⟨3, 1⟩, ⟨40, 8⟩])).map
        (fun bl => bl.apply 8 512) =
      some (some { range_start := 0, range_end := 512, len := 11, slices := [8, 448] }) ∧
    (LayoutBuilder.finish (buildFrom [⟨3, 1⟩, ⟨40, 8⟩])).bind
        (fun bl => (bl.apply 8 512).bind (fun b => b.as_raw 0)) = some (8, 11) ∧
    (LayoutBuilder.finish (buildFrom [⟨3, 1⟩, ⟨40, 8⟩])).bind
        (fun bl => spec_slot_address bl 8 (offsetsFrom bl.sub_layouts 11 0) 0) = some 448 ∧
    (8 : Nat) ≠ 448 := by
  refine ⟨by decide, by decide, by decide, by decide⟩

/-- C2 counterexample: a builder whose final pair is not realizable
(element size `2 ^ 64 - 2` with alignment 4 overflows the layout rounding
rule) makes `finish` hit the `unwrap` panic (`none`), rather than
returning a recoverable error: `finish`'s return carries no error variant. -/
theorem c2_finish_unwrap_panics :
    LayoutBuilder.finish
      (buildFrom [⟨2 ^ 63 - 1, 1⟩, ⟨2 ^ 63 - 1, 1⟩, ⟨0, 4⟩]) = none := by
  decide

/-- C2 (amended): whenever the final `(element_size, max_alignment)` pair
is rejected by `Layout::from_size_align`, `finish` panics on its `unwrap`
(modelled `none`); no error value is surfaced to the caller. -/
theorem c2_finish_panics_on_invalid_layout (b : LayoutBuilder)
    (h : Layout.from_size_align b.element_size b.max_alignment = none) :
    b.finish = none := by
  unfold LayoutBuilder.finish
  rw [h]

/-- C2 witness: the amended statement applied at the concrete overflowing
builder. -/
theorem c2_finish_panics_on_invalid_layout_witness :
    Layout.from_size_align
        (buildFrom [⟨2 ^ 63 - 1, 1⟩, ⟨2 ^ 63 - 1, 1⟩, ⟨0, 4⟩]).element_size
        (buildFrom [⟨2 ^ 63 - 1, 1⟩, ⟨2 ^ 63 - 1, 1⟩, ⟨0, 4⟩]).max_alignment = none ∧
    LayoutBuilder.finish (buildFrom [⟨2 ^ 63 - 1, 1⟩, ⟨2 ^ 63 - 1, 1⟩, ⟨0, 4⟩]) = none :=
  ⟨by decide, c2_finish_panics_on_invalid_layout _ (by decide)⟩

/-- C3: the claim says a region smaller than one alignment unit yields
`len == 0` with no underflow or abort.  The code computes `end - start`
with an unchecked `usize` subtraction: for a single field (40,8), base
address 1 and usable size 2, `start = 8 > end = 0` and the subtraction
underflows (a panic under overflow checks, modelled `none`), instead of
producing a length-0 `Block`. -/
theorem c3_underflow_at_small_region :
    (LayoutBuilder.finish (buildFrom [⟨40, 8⟩])).map (fun bl => bl.apply 1 2) =
      some none := by
  decide

/-- C5 counterexample: with stride 8 (one field (8,8)), base address 1 and
usable size 2, the aligned region is empty, and `apply` panics on the
`end - start` underflow (modelled `none`) instead of returning
`len == floor(0 / 8) == 0`. -/
theorem c5_apply_panics_on_empty_aligned_region :
    (LayoutBuilder.finish (buildFrom [⟨8, 8⟩])).map (fun bl => bl.apply 1 2) =
      some none := by
  decide

/-- C6 counterexample: one zero-sized field of alignment 8, base address 1
and usable size 2: the claim says any region yields the unbounded length
sentinel, but `apply` panics on the `end - start` underflow (modelled
`none`) before reaching the sentinel computation. -/
theorem c6_apply_panics_despite_zero_size :
    (LayoutBuilder.finish (buildFrom [⟨0, 8⟩])).map (fun bl => bl.apply 1 2) =
      some none := by
  decide

/-- C8: `finish` on a builder with zero `add` calls yields the empty
layout of size 0 and alignment 1, and `apply` of that layout returns the
degenerate `Block` with `len == 0` and no field addresses for every base
address and usable size. -/
theorem c8_empty_layout :
    LayoutBuilder.finish BlockLayout.build =
      some { slot_map := [], layout := { size := 0, align := 1 }, sub_layouts := [] } ∧
    ∀ ptr size : Nat,
      BlockLayout.apply
          { slot_map := [], layout := { size := 0, align := 1 }, sub_layouts := [] }
          ptr size =
        some { range_start := 0, range_end := 0, len := 0, slices := [] } := by
  exact ⟨by decide, fun ptr size => rfl⟩

/-! ### The offset loop and the slice loop -/

theorem offsetsFrom_length (ls : List Layout) (len off : Nat) :
    (offsetsFrom ls len off).length = ls.length := by
  induction ls generalizing off with
  | nil => rfl
  | cons l ls ih => simp [offsetsFrom, ih]

theorem computeOffsets_eq_offsetsFrom (ls : List Layout) (len : Nat) :
    ∀ off : Nat,
    (∀ l ∈ ls, ∃ k, l.align = 2 ^ k) →
    (∀ l ∈ ls, l.align ∣ l.size) →
    List.Pairwise (fun a b => b.align ≤ a.align) ls →
    (∀ l ∈ ls, l.align ∣ off) →
    computeOffsets ls len off = some (offsetsFrom ls len off) := by
  induction ls with
  | nil => intro off _ _ _ _; rfl
  | cons l ls ih =>
    intro off hpow hsz hsorted hoff
    have hl : l.align ∣ off := hoff l (by simp)
    have hmod : (off % l.align == 0) = true := by
      obtain ⟨c, rfl⟩ := hl
      simp [Nat.mul_mod_right]
    rw [computeOffsets, if_pos hmod]
    have hhead : ∀ b ∈ ls, b.align ≤ l.align := fun b hb =>
      (List.pairwise_cons.mp hsorted).1 b hb
    have htail : ∀ b ∈ ls, b.align ∣ off + l.size * len := by
      intro b hb
      refine Nat.dvd_add (hoff b (by simp [hb])) (Dvd.dvd.mul_right ?_ len)
      obtain ⟨j, hj⟩ := hpow b (by simp [hb])
      obtain ⟨k, hk⟩ := hpow l (by simp)
      have hle : j ≤ k := by
        have := hhead b hb
        rw [hj, hk] at this
        exact (Nat.pow_le_pow_iff_right (by omega)).mp this
      calc b.align ∣ l.align := by
            rw [hj, hk]; exact pow_dvd_pow 2 hle
        _ ∣ l.size := hsz l (by simp)
    rw [ih (off + l.size * len)
      (fun b hb => hpow b (by simp [hb]))
      (fun b hb => hsz b (by simp [hb]))
      (List.pairwise_cons.mp hsorted).2 htail]
    rfl

theorem computeOffsets_some_dvd {ls : List Layout} {len : Nat} :
    ∀ {off : Nat} {offs : List Nat},
    computeOffsets ls len off = some offs →
    ∀ i (h1 : i < ls.length) (h2 : i < offs.length), ls[i].align ∣ offs[i] := by
  induction ls with
  | nil => intro off offs h i h1 h2; simp at h1
  | cons l ls ih =>
    intro off offs h i h1 h2
    rw [computeOffsets] at h
    by_cases hc : (off % l.align == 0) = true
    · rw [if_pos hc] at h
      cases hrec : computeOffsets ls len (off + l.size * len) with
      | none => rw [hrec] at h; cases h
      | some rest =>
        rw [hrec] at h
        cases h
        match i with
        | 0 =>
          simpa using Nat.dvd_of_mod_eq_zero (by simpa using hc)
        | i + 1 =>
          simpa using ih hrec i (by simpa using h1) (by simpa using h2)
    · rw [if_neg hc] at h; cases h

theorem lookupAll_range_aux (offs : List Nat) :
    ∀ m s, s + m ≤ offs.length →
      lookupAll offs (List.range' s m) = some ((offs.drop s).take m) := by
  intro m
  induction m with
  | zero => intro s h; simp [lookupAll]
  | succ m ih =>
    intro s h
    have hs : s < offs.length := by omega
    rw [List.range'_succ, lookupAll, List.getElem?_eq_getElem hs, ih (s + 1) (by omega)]
    have hdrop : List.drop s offs = offs[s] :: List.drop (s + 1) offs :=
      List.drop_eq_getElem_cons hs
    rw [hdrop, List.take_succ_cons]

theorem lookupAll_range (offs : List Nat) :
    lookupAll offs (List.range offs.length) = some offs := by
  rw [List.range_eq_range', lookupAll_range_aux offs offs.length 0 (by omega)]
  simp

theorem offsetsFrom_ge (ls : List Layout) (len : Nat) :
    ∀ off j (hj : j < (offsetsFrom ls len off).length),
      off ≤ (offsetsFrom ls len off)[j] := by
  induction ls with
  | nil => intro off j hj; simp [offsetsFrom] at hj
  | cons l ls ih =>
    intro off j hj
    match j with
    | 0 => simp [offsetsFrom]
    | j + 1 =>
      have := ih (off + l.size * len) j (by simpa [offsetsFrom] using hj)
      simpa [offsetsFrom] using le_trans (Nat.le_add_right off (l.size * len)) this

theorem offsetsFrom_mono (ls : List Layout) (len : Nat) :
    ∀ off i j (hi : i < ls.length) (hi2 : i < (offsetsFrom ls len off).length)
      (hj : j < (offsetsFrom ls len off).length), i < j →
      (offsetsFrom ls len off)[i] + ls[i].size * len ≤ (offsetsFrom ls len off)[j] := by
  induction ls with
  | nil => intro off i j hi; simp at hi
  | cons l ls ih =>
    intro off i j hi hi2 hj hij
    match i, j with
    | 0, j + 1 =>
      have := offsetsFrom_ge ls len (off + l.size * len) j
        (by simpa [offsetsFrom] using hj)
      simpa [offsetsFrom] using this
    | i + 1, j + 1 =>
      have := ih (off + l.size * len) i j (by simpa using hi)
        (by simpa [offsetsFrom] using hi2) (by simpa [offsetsFrom] using hj) (by omega)
      simpa [offsetsFrom] using this

theorem offsetsFrom_prefix_bound (ls : List Layout) (len : Nat) :
    ∀ off i (hi : i < ls.length) (hi2 : i < (offsetsFrom ls len off).length),
      (offsetsFrom ls len off)[i] + ls[i].size * len ≤
        off + (ls.map (fun l => l.size * len)).sum := by
  induction ls with
  | nil => intro off i hi; simp at hi
  | cons l ls ih =>
    intro off i hi hi2
    match i with
    | 0 => simp [offsetsFrom]
    | i + 1 =>
      have := ih (off + l.size * len) i (by simpa using hi)
        (by simpa [offsetsFrom] using hi2)
      simp only [offsetsFrom, List.getElem_cons_succ, List.map_cons, List.sum_cons]
      omega

/-! ### Successful runs of apply -/

theorem apply_spec (bl : BlockLayout) (ptr size : Nat)
    (hne : bl.sub_layouts ≠ [])
    (hpow : bl.layout.align &&& (bl.layout.align - 1) = 0)
    (h1 : ptr + bl.layout.align < USIZE)
    (h2 : ptr + size < USIZE)
    (h3 : round_up ptr bl.layout.align ≤ round_down (ptr + size) bl.layout.align)
    (hvals : bl.slot_map.map Prod.snd = List.range bl.sub_layouts.length)
    (L : Nat)
    (hL : L = if bl.layout.size == 0 then USIZE - 1
          else (round_down (ptr + size) bl.layout.align - round_up ptr bl.layout.align) /
            bl.layout.size)
    (hoffs : computeOffsets bl.sub_layouts L 0 = some (offsetsFrom bl.sub_layouts L 0)) :
    bl.apply ptr size =
      some { range_start := round_up ptr bl.layout.align - ptr,
             range_end := round_up ptr bl.layout.align - ptr +
               (round_down (ptr + size) bl.layout.align - round_up ptr bl.layout.align),
             len := L,
             slices := (offsetsFrom bl.sub_layouts L 0).map
               (fun o => round_up ptr bl.layout.align + o) } := by
  unfold BlockLayout.apply
  rw [if_neg (by simp [List.isEmpty_iff, hne]),
      if_neg (by simp [hpow]),
      if_neg (by omega),
      if_neg (by omega),
      if_neg (by omega)]
  simp only [← hL, hoffs, hvals, ← offsetsFrom_length bl.sub_layouts L 0, lookupAll_range]

theorem buildFrom_sub_layouts {ls : List Layout} {bl : BlockLayout}
    (hf : (buildFrom ls).finish = some bl) :
    bl.sub_layouts = (sortLayouts (enumFrom 0 ls)).map Prod.snd := by
  have h := (finish_some_elim hf).2.2
  rwa [buildFrom_layouts] at h

theorem sub_layouts_length {ls : List Layout} {bl : BlockLayout}
    (hf : (buildFrom ls).finish = some bl) :
    bl.sub_layouts.length = ls.length := by
  rw [buildFrom_sub_layouts hf, List.length_map, (sortLayouts_perm _).length_eq,
    enumFrom_length]

theorem mem_sub_layouts {ls : List Layout} {bl : BlockLayout}
    (hf : (buildFrom ls).finish = some bl) (l : Layout) (hl : l ∈ bl.sub_layouts) :
    l ∈ ls := by
  rw [buildFrom_sub_layouts hf] at hl
  obtain ⟨p, hp, rfl⟩ := List.mem_map.mp hl
  have hp2 : p ∈ enumFrom 0 ls := (sortLayouts_perm _).mem_iff.mp hp
  have hmem := List.mem_map_of_mem Prod.snd hp2
  rwa [enumFrom_map_snd] at hmem

theorem sub_layouts_sorted_align {ls : List Layout} {bl : BlockLayout}
    (hf : (buildFrom ls).finish = some bl) :
    List.Pairwise (fun a b => b.align ≤ a.align) bl.sub_layouts := by
  rw [buildFrom_sub_layouts hf]
  refine List.Pairwise.map Prod.snd ?_ (sortLayouts_sorted (enumFrom 0 ls))
  intro a b hab
  unfold packR at hab
  omega

theorem slot_map_values {ls : List Layout} {bl : BlockLayout}
    (hf : (buildFrom ls).finish = some bl) :
    bl.slot_map.map Prod.snd = List.range bl.sub_layouts.length := by
  have h := (finish_some_elim hf).2.1
  rw [h, List.map_map]
  have hcomp : (Prod.snd ∘ fun p : Nat × (Nat × Layout) => (p.2.1, p.1)) = Prod.fst := rfl
  rw [hcomp, enumFrom_map_fst, List.range_eq_range', buildFrom_layouts]
  congr 1
  rw [buildFrom_sub_layouts hf, List.length_map]

/-- Master lemma: on a layout finished from real field layouts, whenever
the guards of `apply` pass (no address overflow, aligned end at least
aligned start), `apply` succeeds and returns exactly the block the source
computes. -/
theorem finish_apply_spec (ls : List Layout) (bl : BlockLayout)
    (hf : (buildFrom ls).finish = some bl)
    (hfields : GoodFields ls)
    (hne : ls ≠ [])
    (ptr size : Nat)
    (h1 : ptr + bl.layout.align < USIZE)
    (h2 : ptr + size < USIZE)
    (h3 : round_up ptr bl.layout.align ≤ round_down (ptr + size) bl.layout.align)
    (L : Nat)
    (hL : L = if bl.layout.size == 0 then USIZE - 1
          else (round_down (ptr + size) bl.layout.align - round_up ptr bl.layout.align) /
            bl.layout.size) :
    bl.apply ptr size =
      some { range_start := round_up ptr bl.layout.align - ptr,
             range_end := round_up ptr bl.layout.align - ptr +
               (round_down (ptr + size) bl.layout.align - round_up ptr bl.layout.align),
             len := L,
             slices := (offsetsFrom bl.sub_layouts L 0).map
               (fun o => round_up ptr bl.layout.align + o) } := by
  have hsub_ne : bl.sub_layouts ≠ [] := by
    intro hnil
    apply hne
    have hlen := sub_layouts_length hf
    rw [hnil] at hlen
    exact List.length_eq_zero.mp hlen.symm
  obtain ⟨hsize, halign, hp2⟩ := from_size_align_some (finish_some_elim hf).1
  have hpow : bl.layout.align &&& (bl.layout.align - 1) = 0 := by
    rw [halign]
    exact land_pred_eq_zero_of_is_power_of_two hp2
  have hoffs : computeOffsets bl.sub_layouts L 0 = some (offsetsFrom bl.sub_layouts L 0) :=
    computeOffsets_eq_offsetsFrom bl.sub_layouts L 0
      (fun l hl => (hfields l (mem_sub_layouts hf l hl)).1)
      (fun l hl => (hfields l (mem_sub_layouts hf l hl)).2)
      (sub_layouts_sorted_align hf)
      (fun l _ => dvd_zero _)
  exact apply_spec bl ptr size hsub_ne hpow h1 h2 h3 (slot_map_values hf) L hL hoffs

theorem offsetsFrom_zero_sizes (ls : List Layout) (len : Nat) :
    ∀ off, (∀ l ∈ ls, l.size = 0) →
      offsetsFrom ls len off = List.replicate ls.length off := by
  induction ls with
  | nil => intro off _; rfl
  | cons l t ih =>
    intro off h
    simp [offsetsFrom, h l (by simp), ih off (fun x hx => h x (by simp [hx])),
      List.replicate_succ]

theorem sub_layouts_size_sum {ls : List Layout} {bl : BlockLayout}
    (hf : (buildFrom ls).finish = some bl) :
    (bl.sub_layouts.map Layout.size).sum = (ls.map Layout.size).sum := by
  rw [buildFrom_sub_layouts hf]
  have hperm : List.Perm ((sortLayouts (enumFrom 0 ls)).map Prod.snd) ls := by
    have h := (sortLayouts_perm (enumFrom 0 ls)).map Prod.snd
    rwa [enumFrom_map_snd] at h
  exact (hperm.map Layout.size).sum_eq

theorem element_size_eq_sum {ls : List Layout} {bl : BlockLayout}
    (hf : (buildFrom ls).finish = some bl) :
    bl.layout.size = (ls.map Layout.size).sum := by
  rw [(from_size_align_some (finish_some_elim hf).1).1, buildFrom_element_size]

theorem sum_map_size_mul (ls : List Layout) (L : Nat) :
    (ls.map (fun l => l.size * L)).sum = (ls.map Layout.size).sum * L := by
  induction ls with
  | nil => simp
  | cons l t ih => simp [ih, Nat.add_mul]

/-! ### Remaining claim theorems -/

/-- C4: for fields whose alignments are powers of two and whose sizes are
multiples of their own alignments, the running offsets assigned in packing
order (each incremented by `size * len`) are exact multiples of each
field's own alignment, so the `assert_eq!(offset % layout.align(), 0)`
inside `apply`'s offset loop never fails, for every element count `len`
(hence for every call to `apply`). -/
theorem c4_offsets_aligned (ls : List Layout) (bl : BlockLayout)
    (hf : (buildFrom ls).finish = some bl)
    (hfields : GoodFields ls) (len : Nat) :
    computeOffsets bl.sub_layouts len 0 = some (offsetsFrom bl.sub_layouts len 0) ∧
    ∀ i (h1 : i < bl.sub_layouts.length)
      (h2 : i < (offsetsFrom bl.sub_layouts len 0).length),
      bl.sub_layouts[i].align ∣ (offsetsFrom bl.sub_layouts len 0)[i] := by
  have hoffs := computeOffsets_eq_offsetsFrom bl.sub_layouts len 0
    (fun l hl => (hfields l (mem_sub_layouts hf l hl)).1)
    (fun l hl => (hfields l (mem_sub_layouts hf l hl)).2)
    (sub_layouts_sorted_align hf) (fun l _ => dvd_zero _)
  exact ⟨hoffs, computeOffsets_some_dvd hoffs⟩

/-- C4 witness: fields (3,1) then (40,8) with len 11: the offset loop
succeeds and each packing-order offset is a multiple of its field's
alignment. -/
theorem c4_offsets_aligned_witness :
    GoodFields [⟨3, 1⟩, ⟨40, 8⟩] ∧
    (computeOffsets
        (BlockLayout.sub_layouts ⟨[(1, 0), (0, 1)], ⟨43, 8⟩, [⟨40, 8⟩, ⟨3, 1⟩]⟩) 11 0 =
      some (offsetsFrom
        (BlockLayout.sub_layouts ⟨[(1, 0), (0, 1)], ⟨43, 8⟩, [⟨40, 8⟩, ⟨3, 1⟩]⟩) 11 0) ∧
    ∀ i (h1 : i <
        (BlockLayout.sub_layouts ⟨[(1, 0), (0, 1)], ⟨43, 8⟩, [⟨40, 8⟩, ⟨3, 1⟩]⟩).length)
      (h2 : i < (offsetsFrom
        (BlockLayout.sub_layouts ⟨[(1, 0), (0, 1)], ⟨43, 8⟩, [⟨40, 8⟩, ⟨3, 1⟩]⟩) 11 0).length),
      (BlockLayout.sub_layouts ⟨[(1, 0), (0, 1)], ⟨43, 8⟩, [⟨40, 8⟩, ⟨3, 1⟩]⟩)[i].align ∣
        (offsetsFrom
          (BlockLayout.sub_layouts ⟨[(1, 0), (0, 1)], ⟨43, 8⟩, [⟨40, 8⟩, ⟨3, 1⟩]⟩) 11 0)[i]) := by
  have hg : GoodFields [⟨3, 1⟩, ⟨40, 8⟩] := by
    intro l hl
    rcases List.mem_cons.mp hl with rfl | hl
    · exact ⟨⟨0, rfl⟩, by decide⟩
    · rcases List.mem_singleton.mp hl with rfl
      exact ⟨⟨3, rfl⟩, by decide⟩
  exact ⟨hg, c4_offsets_aligned [⟨3, 1⟩, ⟨40, 8⟩] _ (by decide) hg 11⟩

/-- C5 (amended): for a layout with positive stride S finished from real
field layouts, and any region whose aligned end is at least its aligned
start (the underflow panic of C3 aside) and whose address arithmetic does
not overflow, `apply` returns `len` equal to
`floor(usable_aligned_size / S)`. -/
theorem c5_len_floor_of_stride (ls : List Layout) (bl : BlockLayout)
    (hf : (buildFrom ls).finish = some bl)
    (hfields : GoodFields ls) (hne : ls ≠ [])
    (hS : 0 < bl.layout.size)
    (ptr size : Nat)
    (h1 : ptr + bl.layout.align < USIZE) (h2 : ptr + size < USIZE)
    (h3 : round_up ptr bl.layout.align ≤ round_down (ptr + size) bl.layout.align) :
    (bl.apply ptr size).map Block.len =
      some ((round_down (ptr + size) bl.layout.align - round_up ptr bl.layout.align) /
        bl.layout.size) := by
  have hz : (bl.layout.size == 0) = false := by simpa using hS.ne'
  rw [finish_apply_spec ls bl hf hfields hne ptr size h1 h2 h3
    ((round_down (ptr + size) bl.layout.align - round_up ptr bl.layout.align) /
      bl.layout.size) (by simp [hz])]
  rfl

/-- C5 witness: one field (8,8), base address 8, usable size 64: `apply`
returns `len = (72 - 8) / 8 = 8`. -/
theorem c5_len_floor_of_stride_witness :
    0 < (BlockLayout.layout ⟨[(0, 0)], ⟨8, 8⟩, [⟨8, 8⟩]⟩).size ∧
    ((BlockLayout.apply ⟨[(0, 0)], ⟨8, 8⟩, [⟨8, 8⟩]⟩ 8 64).map Block.len =
      some ((round_down (8 + 64) 8 - round_up 8 8) / 8)) := by
  refine ⟨by decide, ?_⟩
  have hg : GoodFields [⟨8, 8⟩] := by
    intro l hl
    rcases List.mem_singleton.mp hl with rfl
    exact ⟨⟨3, rfl⟩, by decide⟩
  exact c5_len_floor_of_stride [⟨8, 8⟩] _ (by decide) hg (by decide) (by decide)
    8 64 (by decide) (by decide) (by decide)

/-- C6 (amended): for a layout all of whose fields are zero-sized (with
power-of-two alignments), and any region whose aligned end is at least its
aligned start (always the case when the maximum alignment is 1; otherwise
the underflow panic of C3 can intervene) and whose address arithmetic does
not overflow, `apply` returns the unbounded sentinel
`len = usize::MAX = 2^64 - 1` and every field's address equals the
region's aligned start. -/
theorem c6_zero_sized_unbounded (ls : List Layout) (bl : BlockLayout)
    (hf : (buildFrom ls).finish = some bl)
    (hzero : ∀ l ∈ ls, l.size = 0)
    (hpow : ∀ l ∈ ls, ∃ k, l.align = 2 ^ k)
    (hne : ls ≠ [])
    (ptr size : Nat)
    (h1 : ptr + bl.layout.align < USIZE) (h2 : ptr + size < USIZE)
    (h3 : round_up ptr bl.layout.align ≤ round_down (ptr + size) bl.layout.align) :
    bl.apply ptr size =
      some { range_start := round_up ptr bl.layout.align - ptr,
             range_end := round_up ptr bl.layout.align - ptr +
               (round_down (ptr + size) bl.layout.align - round_up ptr bl.layout.align),
             len := USIZE - 1,
             slices := List.replicate ls.length (round_up ptr bl.layout.align) } := by
  have hfields : GoodFields ls := fun l hl =>
    ⟨hpow l hl, by rw [hzero l hl]; exact dvd_zero _⟩
  have hsize0 : bl.layout.size = 0 := by
    rw [element_size_eq_sum hf]
    refine List.sum_eq_zero ?_
    intro x hx
    obtain ⟨l, hl, rfl⟩ := List.mem_map.mp hx
    exact hzero l hl
  rw [finish_apply_spec ls bl hf hfields hne ptr size h1 h2 h3 (USIZE - 1)
    (by simp [hsize0])]
  rw [offsetsFrom_zero_sizes bl.sub_layouts (USIZE - 1) 0
    (fun l hl => hzero l (mem_sub_layouts hf l hl)), List.map_replicate,
    sub_layouts_length hf]
  simp

/-- C6 witness: one zero-sized field of alignment 1, base address 5,
usable size 9: `apply` yields the sentinel length and the field's address
is the aligned start. -/
theorem c6_zero_sized_unbounded_witness :
    (∀ l ∈ [(⟨0, 1⟩ : Layout)], l.size = 0) ∧
    BlockLayout.apply ⟨[(0, 0)], ⟨0, 1⟩, [⟨0, 1⟩]⟩ 5 9 =
      some { range_start := round_up 5 1 - 5,
             range_end := round_up 5 1 - 5 + (round_down (5 + 9) 1 - round_up 5 1),
             len := USIZE - 1,
             slices := List.replicate (List.length [(⟨0, 1⟩ : Layout)]) (round_up 5 1) } := by
  refine ⟨by decide, ?_⟩
  exact c6_zero_sized_unbounded [⟨0, 1⟩] _ (by decide) (by decide)
    (by intro l hl; rcases List.mem_singleton.mp hl with rfl; exact ⟨0, rfl⟩)
    (by decide) 5 9 (by decide) (by decide) (by decide)

/-- C7: `finish` orders the registered fields by alignment descending with
ties broken by ascending original slot: the packing order is a
(deterministic, being a pure function of the `add` sequence) permutation
of the registration order, strictly sorted by that key, and `sub_layouts`
is exactly that order. -/
theorem c7_packing_order (ls : List Layout) (bl : BlockLayout)
    (hf : (buildFrom ls).finish = some bl) :
    List.Perm (sortLayouts (buildFrom ls).layouts) (buildFrom ls).layouts ∧
    List.Pairwise (fun a b : Nat × Layout =>
        b.2.align < a.2.align ∨ (a.2.align = b.2.align ∧ a.1 < b.1))
      (sortLayouts (buildFrom ls).layouts) ∧
    bl.sub_layouts = (sortLayouts (buildFrom ls).layouts).map Prod.snd := by
  refine ⟨sortLayouts_perm _, ?_, by rw [buildFrom_sub_layouts hf, buildFrom_layouts]⟩
  have hnodup : ((sortLayouts (buildFrom ls).layouts).map Prod.fst).Nodup := by
    rw [((sortLayouts_perm (buildFrom ls).layouts).map Prod.fst).nodup_iff]
    rw [buildFrom_layouts, enumFrom_map_fst]
    exact List.nodup_range' 0 ls.length 1 Nat.one_pos
  have hne_fst : List.Pairwise (fun a b : Nat × Layout => a.1 ≠ b.1)
      (sortLayouts (buildFrom ls).layouts) := List.pairwise_map.mp hnodup
  have hsorted : List.Pairwise packR (sortLayouts (buildFrom ls).layouts) :=
    sortLayouts_sorted (buildFrom ls).layouts
  refine (hsorted.and hne_fst).imp ?_
  intro a b hab
  obtain ⟨hp, hne2⟩ := hab
  unfold packR at hp
  omega

/-- C7 witness: fields (2,2), (1,1), (4,4) pack as slots [2, 0, 1]. -/
theorem c7_packing_order_witness :
    (buildFrom [⟨2, 2⟩, ⟨1, 1⟩, ⟨4, 4⟩]).finish =
      some ⟨[(2, 0), (0, 1), (1, 2)], ⟨7, 4⟩, [⟨4, 4⟩, ⟨2, 2⟩, ⟨1, 1⟩]⟩ ∧
    (List.Perm (sortLayouts (buildFrom [⟨2, 2⟩, ⟨1, 1⟩, ⟨4, 4⟩]).layouts)
        (buildFrom [⟨2, 2⟩, ⟨1, 1⟩, ⟨4, 4⟩]).layouts ∧
      List.Pairwise (fun a b : Nat × Layout =>
          b.2.align < a.2.align ∨ (a.2.align = b.2.align ∧ a.1 < b.1))
        (sortLayouts (buildFrom [⟨2, 2⟩, ⟨1, 1⟩, ⟨4, 4⟩]).layouts) ∧
      (BlockLayout.sub_layouts ⟨[(2, 0), (0, 1), (1, 2)], ⟨7, 4⟩, [⟨4, 4⟩, ⟨2, 2⟩, ⟨1, 1⟩]⟩) =
        (sortLayouts (buildFrom [⟨2, 2⟩, ⟨1, 1⟩, ⟨4, 4⟩]).layouts).map Prod.snd) :=
  ⟨by decide, c7_packing_order [⟨2, 2⟩, ⟨1, 1⟩, ⟨4, 4⟩]
    ⟨[(2, 0), (0, 1), (1, 2)], ⟨7, 4⟩, [⟨4, 4⟩, ⟨2, 2⟩, ⟨1, 1⟩]⟩ (by decide)⟩

/-- C9: the element layout produced by `finish` has size equal to the sum
of all registered field sizes (and the packed `sub_layouts` sizes sum to
the same: no hidden inter-field padding) and alignment equal to the
maximum of all registered field alignments, starting from 1. -/
theorem c9_element_size_sum_align_max (ls : List Layout) (bl : BlockLayout)
    (hf : (buildFrom ls).finish = some bl) :
    bl.layout.size = (ls.map Layout.size).sum ∧
    bl.layout.align = List.foldl (fun m l => max m l.align) 1 ls ∧
    (bl.sub_layouts.map Layout.size).sum = bl.layout.size := by
  obtain ⟨hsz, hal, _⟩ := from_size_align_some (finish_some_elim hf).1
  refine ⟨element_size_eq_sum hf, ?_, ?_⟩
  · rw [hal, buildFrom_max_alignment]
  · rw [sub_layouts_size_sum hf, element_size_eq_sum hf]

/-- C9 witness: fields (1,1) and (8,4) give element size 9 and alignment 4. -/
theorem c9_element_size_sum_align_max_witness :
    (buildFrom [⟨1, 1⟩, ⟨8, 4⟩]).finish =
      some ⟨[(1, 0), (0, 1)], ⟨9, 4⟩, [⟨8, 4⟩, ⟨1, 1⟩]⟩ ∧
    ((BlockLayout.layout ⟨[(1, 0), (0, 1)], ⟨9, 4⟩, [⟨8, 4⟩, ⟨1, 1⟩]⟩).size =
        (([⟨1, 1⟩, ⟨8, 4⟩] : List Layout).map Layout.size).sum ∧
      (BlockLayout.layout ⟨[(1, 0), (0, 1)], ⟨9, 4⟩, [⟨8, 4⟩, ⟨1, 1⟩]⟩).align =
        List.foldl (fun m l => max m l.align) 1 ([⟨1, 1⟩, ⟨8, 4⟩] : List Layout) ∧
      ((BlockLayout.sub_layouts ⟨[(1, 0), (0, 1)], ⟨9, 4⟩, [⟨8, 4⟩, ⟨1, 1⟩]⟩).map
          Layout.size).sum =
        (BlockLayout.layout ⟨[(1, 0), (0, 1)], ⟨9, 4⟩, [⟨8, 4⟩, ⟨1, 1⟩]⟩).size) :=
  ⟨by decide, c9_element_size_sum_align_max [⟨1, 1⟩, ⟨8, 4⟩]
    ⟨[(1, 0), (0, 1)], ⟨9, 4⟩, [⟨8, 4⟩, ⟨1, 1⟩]⟩ (by decide)⟩

/-- C10: for a layout with at least one field and positive stride, on any
region where `apply` succeeds, the bytes assigned to the field sub-arrays
total `element_size * len`, never exceed the aligned region's size, every
field's sub-range `[offset, offset + size * len)` lies inside the aligned
region, and the sub-ranges of distinct fields are pairwise disjoint
(lower-positioned sub-range ends at or before the next one's offset). -/
theorem c10_subranges_within_and_disjoint (ls : List Layout) (bl : BlockLayout)
    (hf : (buildFrom ls).finish = some bl)
    (hfields : GoodFields ls) (hne : ls ≠ [])
    (hS : 0 < bl.layout.size)
    (ptr size : Nat)
    (h1 : ptr + bl.layout.align < USIZE) (h2 : ptr + size < USIZE)
    (h3 : round_up ptr bl.layout.align ≤ round_down (ptr + size) bl.layout.align) :
    (bl.apply ptr size).map Block.len =
      some ((round_down (ptr + size) bl.layout.align - round_up ptr bl.layout.align) /
        bl.layout.size) ∧
    (bl.sub_layouts.map (fun l => l.size *
        ((round_down (ptr + size) bl.layout.align - round_up ptr bl.layout.align) /
          bl.layout.size))).sum =
      bl.layout.size *
        ((round_down (ptr + size) bl.layout.align - round_up ptr bl.layout.align) /
          bl.layout.size) ∧
    bl.layout.size *
        ((round_down (ptr + size) bl.layout.align - round_up ptr bl.layout.align) /
          bl.layout.size) ≤
      round_down (ptr + size) bl.layout.align - round_up ptr bl.layout.align ∧
    (∀ i (hi : i < bl.sub_layouts.length)
      (hi2 : i < (offsetsFrom bl.sub_layouts
        ((round_down (ptr + size) bl.layout.align - round_up ptr bl.layout.align) /
          bl.layout.size) 0).length),
      (offsetsFrom bl.sub_layouts
          ((round_down (ptr + size) bl.layout.align - round_up ptr bl.layout.align) /
            bl.layout.size) 0)[i] +
        bl.sub_layouts[i].size *
          ((round_down (ptr + size) bl.layout.align - round_up ptr bl.layout.align) /
            bl.layout.size) ≤
        round_down (ptr + size) bl.layout.align - round_up ptr bl.layout.align) ∧
    (∀ i j (hi : i < bl.sub_layouts.length)
      (hi2 : i < (offsetsFrom bl.sub_layouts
        ((round_down (ptr + size) bl.layout.align - round_up ptr bl.layout.align) /
          bl.layout.size) 0).length)
      (hj2 : j < (offsetsFrom bl.sub_layouts
        ((round_down (ptr + size) bl.layout.align - round_up ptr bl.layout.align) /
          bl.layout.size) 0).length),
      i < j →
      (offsetsFrom bl.sub_layouts
          ((round_down (ptr + size) bl.layout.align - round_up ptr bl.layout.align) /
            bl.layout.size) 0)[i] +
        bl.sub_layouts[i].size *
          ((round_down (ptr + size) bl.layout.align - round_up ptr bl.layout.align) /
            bl.layout.size) ≤
        (offsetsFrom bl.sub_layouts
          ((round_down (ptr + size) bl.layout.align - round_up ptr bl.layout.align) /
            bl.layout.size) 0)[j]) := by
  have hz : (bl.layout.size == 0) = false := by simpa using hS.ne'
  have happ := finish_apply_spec ls bl hf hfields hne ptr size h1 h2 h3
    ((round_down (ptr + size) bl.layout.align - round_up ptr bl.layout.align) /
      bl.layout.size) (by simp [hz])
  refine ⟨by rw [happ]; rfl, ?_, ?_, ?_, ?_⟩
  · rw [sum_map_size_mul, sub_layouts_size_sum hf, ← element_size_eq_sum hf]
  · calc bl.layout.size *
        ((round_down (ptr + size) bl.layout.align - round_up ptr bl.layout.align) /
          bl.layout.size) =
        ((round_down (ptr + size) bl.layout.align - round_up ptr bl.layout.align) /
          bl.layout.size) * bl.layout.size := Nat.mul_comm ..
      _ ≤ round_down (ptr + size) bl.layout.align - round_up ptr bl.layout.align :=
        Nat.div_mul_le_self ..
  · intro i hi hi2
    have hb := offsetsFrom_prefix_bound bl.sub_layouts
      ((round_down (ptr + size) bl.layout.align - round_up ptr bl.layout.align) /
        bl.layout.size) 0 i hi hi2
    rw [Nat.zero_add, sum_map_size_mul, sub_layouts_size_sum hf,
      ← element_size_eq_sum hf] at hb
    calc _ ≤ bl.layout.size *
        ((round_down (ptr + size) bl.layout.align - round_up ptr bl.layout.align) /
          bl.layout.size) := hb
      _ = _ * bl.layout.size := Nat.mul_comm ..
      _ ≤ _ := Nat.div_mul_le_self ..
  · intro i j hi hi2 hj2 hij
    exact offsetsFrom_mono bl.sub_layouts
      ((round_down (ptr + size) bl.layout.align - round_up ptr bl.layout.align) /
        bl.layout.size) 0 i j hi hi2 hj2 hij

/-- C10 witness: fields (4,4) and (2,2) on the region at base 4 of size
20: stride 6, len 3, offsets [0, 12], both sub-ranges inside the 20
aligned bytes and disjoint. -/
theorem c10_subranges_witness :
    0 < (BlockLayout.layout ⟨[(0, 0), (1, 1)], ⟨6, 4⟩, [⟨4, 4⟩, ⟨2, 2⟩]⟩).size ∧
    ((BlockLayout.apply ⟨[(0, 0), (1, 1)], ⟨6, 4⟩, [⟨4, 4⟩, ⟨2, 2⟩]⟩ 4 20).map Block.len =
      some ((round_down (4 + 20) 4 - round_up 4 4) / 6)) := by
  have hg : GoodFields [⟨4, 4⟩, ⟨2, 2⟩] := by
    intro l hl
    rcases List.mem_cons.mp hl with rfl | hl
    · exact ⟨⟨2, rfl⟩, by decide⟩
    · rcases List.mem_singleton.mp hl with rfl
      exact ⟨⟨1, rfl⟩, by decide⟩
  refine ⟨by decide, ?_⟩
  have h := c10_subranges_within_and_disjoint [⟨4, 4⟩, ⟨2, 2⟩]
    ⟨[(0, 0), (1, 1)], ⟨6, 4⟩, [⟨4, 4⟩, ⟨2, 2⟩]⟩ (by decide) hg
    (by decide) (by decide) 4 20 (by decide) (by decide) (by decide)
  exact h.1

/-! ### The mask-based rounding really rounds

Supporting lemmas (not tied to a single claim): on operands below
`2 ^ 64`, the source's bit-twiddled `round_down`/`round_up` agree with
arithmetic rounding to a multiple of the power-of-two alignment. -/

theorem round_down_two_pow {k x : Nat} (hk : k ≤ 64) (hx : x < USIZE) :
    round_down x (2 ^ k) = 2 ^ k * (x / 2 ^ k) := by
  have hmul : 2 ^ k * (x / 2 ^ k) = (x >>> k) <<< k := by
    rw [Nat.shiftLeft_eq, Nat.shiftRight_eq_div_pow, Nat.mul_comm]
  rw [hmul]
  unfold round_down not64 USIZE
  apply Nat.eq_of_testBit_eq
  intro i
  rw [Nat.testBit_land, Nat.testBit_xor, Nat.testBit_shiftLeft,
    Nat.testBit_two_pow_sub_one, Nat.testBit_two_pow_sub_one, Nat.testBit_shiftRight]
  by_cases h1 : i < k
  · have h64 : i < 64 := lt_of_lt_of_le h1 hk
    simp [h1, h64, Nat.not_le.mpr h1]
  · have hk_le : k ≤ i := Nat.le_of_not_lt h1
    have hadd : k + (i - k) = i := by omega
    by_cases h2 : i < 64
    · simp [h2, h1, hk_le, hadd]
    · have hbit : x.testBit i = false :=
        Nat.testBit_lt_two_pow
          (lt_of_lt_of_le hx (Nat.pow_le_pow_right (by norm_num) (by omega)))
      simp [h2, h1, hk_le, hadd, hbit]

theorem round_up_two_pow {k x : Nat} (hk : k ≤ 64) (hx : x + 2 ^ k ≤ USIZE) :
    round_up x (2 ^ k) = 2 ^ k * ((x + 2 ^ k - 1) / 2 ^ k) := by
  have h1 : (1 : Nat) ≤ 2 ^ k := Nat.one_le_two_pow
  have hx2 : x + 2 ^ k - 1 < USIZE := by omega
  exact round_down_two_pow hk hx2

theorem round_down_le {k x : Nat} (hk : k ≤ 64) (hx : x < USIZE) :
    round_down x (2 ^ k) ≤ x := by
  rw [round_down_two_pow hk hx]
  calc 2 ^ k * (x / 2 ^ k) = x / 2 ^ k * 2 ^ k := Nat.mul_comm ..
    _ ≤ x := Nat.div_mul_le_self ..

theorem round_up_ge {k x : Nat} (hk : k ≤ 64) (hx : x + 2 ^ k ≤ USIZE) :
    x ≤ round_up x (2 ^ k) := by
  rw [round_up_two_pow hk hx]
  have ha : 0 < 2 ^ k := Nat.two_pow_pos k
  have hdm := Nat.div_add_mod (x + 2 ^ k - 1) (2 ^ k)
  have hm := Nat.mod_lt (x + 2 ^ k - 1) ha
  omega

theorem dvd_round_down {k x : Nat} (hk : k ≤ 64) (hx : x < USIZE) :
    2 ^ k ∣ round_down x (2 ^ k) := by
  rw [round_down_two_pow hk hx]
  exact Dvd.intro _ rfl

theorem dvd_round_up {k x : Nat} (hk : k ≤ 64) (hx : x + 2 ^ k ≤ USIZE) :
    2 ^ k ∣ round_up x (2 ^ k) := by
  rw [round_up_two_pow hk hx]
  exact Dvd.intro _ rfl

end Billow
